import Mathlib

/-!
# Verification of the bgthai image-scraping pipeline

Shallow embedding of the scripts in this repository: the recursive remote
tree walker (`getImageFilesFromRepo` in `index.js` / `getImageIdsFromRepo`
in `scrapeImages.js`), the fetch/decode step built around the regular
expression `src="data:image\/[^;]+;base64,([^"]+)"`, the local
materializer (`fs.mkdirSync {recursive}` + `fs.writeFileSync`), the
line-oriented identifier readers (`readImageIds`), and the arranger
(`arrangeImages` / `moveFileToFolder`).

Network and filesystem effects are made explicit: the remote tree is a
value of an inductive type in which a directory listing either succeeds
with a list of entries or fails (the `catch` branch of the scripts), the
upstream HTTP response is a `String` argument, and the local filesystem is
a record of files (path ↦ bytes) and directories.
-/

set_option autoImplicit false

/-- One record produced by the walker: `{ id, relativePath }` in
`index.js`. -/
structure ImageRecord where
  id : String
  relativePath : String
  deriving DecidableEq, Repr

/-- Node's `path.join(a, b)` restricted to the plain segments this program
produces (no `.`/`..` normalisation is ever triggered by them): an empty
side disappears, otherwise the parts are separated by `/`. -/
def pathJoin (a b : String) : String :=
  if a = "" then b else if b = "" then a else a ++ "/" ++ b

/-- ASCII case folding, modelling the `i` flag of the allow-list regex on
the ASCII file names this repository hosts. -/
def asciiLower (c : Char) : Char :=
  if 65 ≤ c.toNat && c.toNat ≤ 90 then Char.ofNat (c.toNat + 32) else c

/-- `l` ends with `suf` (on character lists). -/
def endsWithL (l suf : List Char) : Bool :=
  l.drop (l.length - suf.length) == suf

/-- The allow-list test `/\.(jpg|jpeg|png)$/i.test(item.name)` from
`index.js` and `scrapeImages.js`: the name ends, case-insensitively, in
`.jpg`, `.jpeg` or `.png`. -/
def isImageName (name : String) : Bool :=
  let l := name.data.map asciiLower
  endsWithL l ".jpg".data || endsWithL l ".jpeg".data || endsWithL l ".png".data

/-- Node's `path.extname(s)` for slash-free names: the substring starting
at the last dot, empty when there is no dot or when the only dot is the
leading character (`.jpg` has no extension in Node). -/
def extname (s : String) : String :=
  let cs := s.data
  let afterDot := cs.reverse.takeWhile (fun c => c ≠ '.')
  if cs.length - 1 ≤ afterDot.length then ""
  else String.mk ('.' :: afterDot.reverse)

/-- `path.basename(name, path.extname(name))` for slash-free names:
drop the extension computed by `extname`. -/
def basenameNoExt (name : String) : String :=
  let ext := extname name
  if ext = "" then name
  else String.mk (name.data.take (name.data.length - ext.data.length))

mutual

/-- A remote directory listing as the walker sees it: either the GitHub
contents call succeeds and returns a JSON array of entries, or it throws
(network error, non-2xx, malformed body) — the `catch` branch. -/
inductive RTree : Type where
| node : REntries → RTree
| fail : RTree

/-- The JSON array returned by one listing call, in response order. -/
inductive REntries : Type where
| nil : REntries
| cons : REntry → REntries → REntries

/-- One `{name, path, type}` item of a listing. `dir` carries the subtree
reached by recursing on `item.path`; `file` is `type === 'file'`; `other`
is any other `type` (symlink, submodule, …), which the loop ignores. -/
inductive REntry : Type where
| dir : String → RTree → REntry
| file : String → REntry
| other : String → REntry

end

/-- Concatenation of two listings (used to speak about siblings). -/
def appendEntries : REntries → REntries → REntries
| REntries.nil, b => b
| REntries.cons e rest, b => REntries.cons e (appendEntries rest b)

mutual

/-- `getImageFilesFromRepo(repoPath, relativePath)` from `index.js`,
lines 43–67: on a successful listing walk the entries, on a thrown
listing error return the empty array (`catch` just logs). -/
def getImageFilesFromRepo : RTree → String → List ImageRecord
| RTree.node es, relativePath => getImageFilesFromEntries es relativePath
| RTree.fail, _ => []
termination_by structural t _ => t

/-- The `for (const item of data)` loop of `getImageFilesFromRepo`:
directories recurse with `path.join(relativePath, item.name)` and their
results are concatenated in iteration order; allow-listed files push one
record; everything else is skipped. -/
def getImageFilesFromEntries : REntries → String → List ImageRecord
| REntries.nil, _ => []
| REntries.cons (REntry.dir name sub) rest, relativePath =>
    getImageFilesFromRepo sub (pathJoin relativePath name) ++
      getImageFilesFromEntries rest relativePath
| REntries.cons (REntry.file name) rest, relativePath =>
    (if isImageName name then
      [{ id := basenameNoExt name, relativePath := relativePath }]
     else []) ++ getImageFilesFromEntries rest relativePath
| REntries.cons (REntry.other _) rest, relativePath =>
    getImageFilesFromEntries rest relativePath
termination_by structural es _ => es

end

/-- The relative path of a file whose ancestor directory chain (from the
enumeration root) is `dirs`: iterated `pathJoin` starting from the empty
root path. -/
def joinSegs (dirs : List String) : String :=
  dirs.foldl pathJoin ""

mutual

/-- Modelled from the spec: the Walker contract — emit one
`ImageRecord{ id: basename-without-extension, relativePath: join of the
ancestor directory names }` per allow-listed image file, nothing for any
other entry, sub-results concatenated in listing order. Stated over the
explicit ancestor-name list `dirs` rather than an accumulated path. -/
def specWalkTree : RTree → List String → List ImageRecord
| RTree.node es, dirs => specWalkEntries es dirs
| RTree.fail, _ => []
termination_by structural t _ => t

/-- Modelled from the spec: entry-list part of `specWalkTree`. -/
def specWalkEntries : REntries → List String → List ImageRecord
| REntries.nil, _ => []
| REntries.cons (REntry.dir name sub) rest, dirs =>
    specWalkTree sub (dirs ++ [name]) ++ specWalkEntries rest dirs
| REntries.cons (REntry.file name) rest, dirs =>
    (if isImageName name then
      [{ id := basenameNoExt name, relativePath := joinSegs dirs }]
     else []) ++ specWalkEntries rest dirs
| REntries.cons (REntry.other _) rest, dirs => specWalkEntries rest dirs
termination_by structural es _ => es

end

mutual

/-- Number of allow-listed image files in a tree (`M` in the spec). -/
def countImagesTree : RTree → Nat
| RTree.node es => countImagesEntries es
| RTree.fail => 0
termination_by structural t => t

/-- Number of allow-listed image files in a listing. -/
def countImagesEntries : REntries → Nat
| REntries.nil => 0
| REntries.cons (REntry.dir _ sub) rest =>
    countImagesTree sub + countImagesEntries rest
| REntries.cons (REntry.file name) rest =>
    (if isImageName name then 1 else 0) + countImagesEntries rest
| REntries.cons (REntry.other _) rest => countImagesEntries rest
termination_by structural es => es

end

mutual

/-- Every listing call in the tree succeeds (the tree is fully
reachable). -/
def noFailTree : RTree → Bool
| RTree.node es => noFailEntries es
| RTree.fail => false
termination_by structural t => t

/-- Every listing call under these entries succeeds. -/
def noFailEntries : REntries → Bool
| REntries.nil => true
| REntries.cons (REntry.dir _ sub) rest => noFailTree sub && noFailEntries rest
| REntries.cons (REntry.file _) rest => noFailEntries rest
| REntries.cons (REntry.other _) rest => noFailEntries rest
termination_by structural es => es

end

theorem joinSegs_concat (dirs : List String) (name : String) :
    joinSegs (dirs ++ [name]) = pathJoin (joinSegs dirs) name := by
  simp [joinSegs, List.foldl_append]

mutual

theorem getImageFilesFromRepo_spec : ∀ (t : RTree) (dirs : List String),
    getImageFilesFromRepo t (joinSegs dirs) = specWalkTree t dirs
| RTree.node es, dirs => by
    rw [getImageFilesFromRepo, specWalkTree, getImageFilesFromEntries_spec es dirs]
| RTree.fail, _ => by rw [getImageFilesFromRepo, specWalkTree]

theorem getImageFilesFromEntries_spec : ∀ (es : REntries) (dirs : List String),
    getImageFilesFromEntries es (joinSegs dirs) = specWalkEntries es dirs
| REntries.nil, _ => by rw [getImageFilesFromEntries, specWalkEntries]
| REntries.cons (REntry.dir name sub) rest, dirs => by
    rw [getImageFilesFromEntries, specWalkEntries, ← joinSegs_concat,
      getImageFilesFromRepo_spec sub (dirs ++ [name]),
      getImageFilesFromEntries_spec rest dirs]
| REntries.cons (REntry.file name) rest, dirs => by
    rw [getImageFilesFromEntries, specWalkEntries,
      getImageFilesFromEntries_spec rest dirs]
| REntries.cons (REntry.other name) rest, dirs => by
    rw [getImageFilesFromEntries, specWalkEntries,
      getImageFilesFromEntries_spec rest dirs]

end

mutual

theorem specWalkTree_length : ∀ (t : RTree) (dirs : List String),
    (specWalkTree t dirs).length = countImagesTree t
| RTree.node es, dirs => by
    rw [specWalkTree, countImagesTree, specWalkEntries_length es dirs]
| RTree.fail, _ => by rw [specWalkTree, countImagesTree]; rfl

theorem specWalkEntries_length : ∀ (es : REntries) (dirs : List String),
    (specWalkEntries es dirs).length = countImagesEntries es
| REntries.nil, _ => by rw [specWalkEntries, countImagesEntries]; rfl
| REntries.cons (REntry.dir name sub) rest, dirs => by
    rw [specWalkEntries, countImagesEntries]
    rw [List.length_append, specWalkTree_length sub (dirs ++ [name]),
      specWalkEntries_length rest dirs]
| REntries.cons (REntry.file name) rest, dirs => by
    rw [specWalkEntries, countImagesEntries]
    rw [List.length_append, specWalkEntries_length rest dirs]
    cases isImageName name <;> rfl
| REntries.cons (REntry.other name) rest, dirs => by
    rw [specWalkEntries, countImagesEntries, specWalkEntries_length rest dirs]

end

theorem getImageFilesFromEntries_append : ∀ (a b : REntries) (rel : String),
    getImageFilesFromEntries (appendEntries a b) rel =
      getImageFilesFromEntries a rel ++ getImageFilesFromEntries b rel
| REntries.nil, b, rel => by
    rw [appendEntries, getImageFilesFromEntries, List.nil_append]
| REntries.cons e rest, b, rel => by
    cases e <;>
      simp [appendEntries, getImageFilesFromEntries,
        getImageFilesFromEntries_append rest b rel]

/-- C1: on a fully reachable remote tree the walker returns exactly the
records the spec describes — one per allow-listed image file, id the
basename without extension, relativePath the join of the ancestor
directory names (empty at the root) — and hence exactly
`countImagesTree t` of them; directory entries only recurse and all other
entries contribute nothing. -/
theorem walker_enumerates_exactly_the_images (t : RTree)
    (_h : noFailTree t = true) :
    getImageFilesFromRepo t "" = specWalkTree t [] ∧
    (getImageFilesFromRepo t "").length = countImagesTree t := by
  have h1 : getImageFilesFromRepo t "" = specWalkTree t [] := by
    have h0 : joinSegs [] = "" := rfl
    rw [← h0]
    exact getImageFilesFromRepo_spec t []
  refine ⟨h1, ?_⟩
  rw [h1]
  exact specWalkTree_length t []

/-- A three-level sample tree: root holds a directory `a` (containing an
image, a text file and a symlink) and a root-level image `y.PNG`. -/
def sampleTree : RTree :=
  RTree.node (REntries.cons (REntry.dir "a" (RTree.node
    (REntries.cons (REntry.file "x.jpg")
      (REntries.cons (REntry.file "notes.txt")
        (REntries.cons (REntry.other "ln") REntries.nil)))))
    (REntries.cons (REntry.file "y.PNG") REntries.nil))

/-- Witness for C1 at `sampleTree`. -/
theorem walker_enumerates_exactly_the_images_witness :
    noFailTree sampleTree = true ∧
    getImageFilesFromRepo sampleTree "" =
      [{ id := "x", relativePath := "a" }, { id := "y", relativePath := "" }] ∧
    countImagesTree sampleTree = 2 ∧
    getImageFilesFromRepo sampleTree "" = specWalkTree sampleTree [] :=
  ⟨rfl, rfl, rfl, (walker_enumerates_exactly_the_images sampleTree rfl).1⟩

/-- C2: a failing listing call yields the empty record sequence for that
subtree, and a directory whose listing fails can be dropped from any
position of a listing without changing the records produced by its
siblings — the walk is not aborted. -/
theorem listing_failure_is_isolated (pre post : REntries)
    (name relativePath : String) :
    getImageFilesFromRepo RTree.fail relativePath = [] ∧
    getImageFilesFromEntries
        (appendEntries pre (REntries.cons (REntry.dir name RTree.fail) post))
        relativePath =
      getImageFilesFromEntries (appendEntries pre post) relativePath := by
  refine ⟨by rw [getImageFilesFromRepo], ?_⟩
  rw [getImageFilesFromEntries_append, getImageFilesFromEntries_append,
    getImageFilesFromEntries, getImageFilesFromRepo, List.nil_append]

/-- Strip the literal `lit` from the front of `cs`, or fail. -/
def dropLit : List Char → List Char → Option (List Char)
| [], cs => some cs
| _ :: _, [] => none
| l :: ls, c :: cs => if c = l then dropLit ls cs else none

/-- The literal head of the extraction regex. -/
def srcLit : List Char := "src=\"data:image/".data

/-- The literal middle of the extraction regex. -/
def b64Lit : List Char := ";base64,".data

/-- Try the regex `src="data:image\/[^;]+;base64,([^"]+)"` anchored at the
start of `cs`; on success return the capture group (the base64 payload).
The greedy classes never cross their terminator, so the JS backtracking
semantics collapse to: literal head, a nonempty run of non-`;`, the
literal `;base64,`, a nonempty run of non-`"`, a closing quote. -/
def matchAt (cs : List Char) : Option (List Char) :=
  match dropLit srcLit cs with
  | none => none
  | some r1 =>
    let sub := r1.takeWhile (fun c => c ≠ ';')
    if sub.isEmpty then none
    else
      match dropLit b64Lit (r1.dropWhile (fun c => c ≠ ';')) with
      | none => none
      | some r2 =>
        let pay := r2.takeWhile (fun c => c ≠ '"')
        if pay.isEmpty then none
        else
          match r2.dropWhile (fun c => c ≠ '"') with
          | '"' :: _ => some pay
          | _ => none

/-- `responseText.match(regex)`: the leftmost position where the pattern
matches, scanning left to right. -/
def firstMatch : List Char → Option (List Char)
| [] => none
| c :: rest =>
  match matchAt (c :: rest) with
  | some pay => some pay
  | none => firstMatch rest

/-- The extraction step of `downloadImage` (`index.js` lines 91–96) and
`downloadImageById`: `match[1]` of the first regex match, if any. -/
def extractBase64 (body : String) : Option String :=
  (firstMatch body.data).map String.mk

/-- Value of one base64 alphabet character (`A–Z`, `a–z`, `0–9`, `+`,
`/`); `none` for anything else. -/
def b64Val (c : Char) : Option Nat :=
  let n := c.toNat
  if 65 ≤ n ∧ n ≤ 90 then some (n - 65)
  else if 97 ≤ n ∧ n ≤ 122 then some (n - 71)
  else if 48 ≤ n ∧ n ≤ 57 then some (n + 4)
  else if n = 43 then some 62
  else if n = 47 then some 63
  else none

/-- Reassemble 6-bit groups into bytes: every full quartet gives three
bytes, a trailing triple two, a trailing pair one. -/
def b64Chunk : List Nat → List Nat
| a :: b :: c :: d :: rest =>
    (a * 4 + b / 16) :: ((b % 16) * 16 + c / 4) :: ((c % 4) * 64 + d) ::
      b64Chunk rest
| [a, b, c] => [a * 4 + b / 16, (b % 16) * 16 + c / 4]
| [a, b] => [a * 4 + b / 16]
| _ => []

/-- `Buffer.from(base64Data, 'base64')`: Node's forgiving decoder skips
every non-alphabet character (including `=` padding and whitespace) and
decodes the remaining 6-bit groups. -/
def base64Decode (s : String) : List Nat :=
  b64Chunk (s.data.filterMap b64Val)

theorem dropLit_append : ∀ (l r : List Char), dropLit l (l ++ r) = some r
| [], r => rfl
| c :: ls, r => by
    rw [List.cons_append, dropLit, if_pos rfl, dropLit_append ls r]

theorem takeWhileAll {p : Char → Bool} : ∀ (l1 l2 : List Char),
    (∀ c ∈ l1, p c = true) → (l1 ++ l2).takeWhile p = l1 ++ l2.takeWhile p
| [], l2, _ => rfl
| c :: rest, l2, h => by
    rw [List.cons_append, List.takeWhile_cons, h c (by simp), if_pos rfl,
      takeWhileAll rest l2 (fun x hx => h x (by simp [hx])), List.cons_append]

theorem dropWhileAll {p : Char → Bool} : ∀ (l1 l2 : List Char),
    (∀ c ∈ l1, p c = true) → (l1 ++ l2).dropWhile p = l2.dropWhile p
| [], l2, _ => rfl
| c :: rest, l2, h => by
    rw [List.cons_append, List.dropWhile_cons, h c (by simp), if_pos rfl,
      dropWhileAll rest l2 (fun x hx => h x (by simp [hx]))]

theorem matchAt_wellformed (sub pay tail : List Char)
    (hsub : sub ≠ []) (hsubSemi : ∀ c ∈ sub, c ≠ ';')
    (hpay : pay ≠ []) (hpayQ : ∀ c ∈ pay, c ≠ '"') :
    matchAt (srcLit ++ (sub ++ (b64Lit ++ (pay ++ '"' :: tail)))) = some pay := by
  have hb : b64Lit ++ (pay ++ '"' :: tail)
      = ';' :: ("base64,".data ++ (pay ++ '"' :: tail)) := rfl
  have hsemi : (sub ++ (b64Lit ++ (pay ++ '"' :: tail))).takeWhile
      (fun c => c ≠ ';') = sub := by
    rw [takeWhileAll sub _ (fun c hc => decide_eq_true (hsubSemi c hc)), hb,
      List.takeWhile_cons]
    simp
  have hdropSemi : (sub ++ (b64Lit ++ (pay ++ '"' :: tail))).dropWhile
      (fun c => c ≠ ';') = b64Lit ++ (pay ++ '"' :: tail) := by
    rw [dropWhileAll sub _ (fun c hc => decide_eq_true (hsubSemi c hc)), hb,
      List.dropWhile_cons]
    simp
  have hpayTake : (pay ++ '"' :: tail).takeWhile (fun c => c ≠ '"') = pay := by
    rw [takeWhileAll pay _ (fun c hc => decide_eq_true (hpayQ c hc)),
      List.takeWhile_cons]
    simp
  have hpayDrop : (pay ++ '"' :: tail).dropWhile (fun c => c ≠ '"')
      = '"' :: tail := by
    rw [dropWhileAll pay _ (fun c hc => decide_eq_true (hpayQ c hc)),
      List.dropWhile_cons]
    simp
  rw [matchAt, dropLit_append]
  simp only [hsemi, hdropSemi]
  rw [if_neg (by simpa using hsub)]
  rw [dropLit_append]
  simp only [hpayTake, hpayDrop]
  rw [if_neg (by simpa using hpay)]

theorem firstMatch_head (cs pay : List Char) (h : matchAt cs = some pay) :
    firstMatch cs = some pay := by
  cases cs with
  | nil =>
      have h0 : matchAt ([] : List Char) = none := rfl
      rw [h0] at h
      cases h
  | cons c rest => rw [firstMatch, h]

/-- C3: the fetcher returns the capture of the first substring matching
`src="data:image/<subtype>;base64,<payload>"`, for any subtype (which
therefore has no effect on the result); the decoded bytes of `QUJD` are
the ASCII bytes of `ABC`; and with two embedded data URIs the first
payload wins. -/
theorem fetcher_extracts_first_payload (sub pay : String)
    (hsub : sub ≠ "") (hsubSemi : ∀ c ∈ sub.data, c ≠ ';')
    (hpay : pay ≠ "") (hpayQ : ∀ c ∈ pay.data, c ≠ '"') :
    extractBase64 ("src=\"data:image/" ++ sub ++ ";base64," ++ pay ++ "\"")
      = some pay ∧
    extractBase64 "<p src=\"data:image/png;base64,QUJD\"></p>" = some "QUJD" ∧
    base64Decode "QUJD" = [65, 66, 67] ∧
    extractBase64 "src=\"data:image/a;base64,X\" src=\"data:image/b;base64,Y\""
      = some "X" := by
  refine ⟨?_, rfl, rfl, rfl⟩
  have hsub' : sub.data ≠ [] := fun hd => hsub (String.ext hd)
  have hpay' : pay.data ≠ [] := fun hd => hpay (String.ext hd)
  have hd : ("src=\"data:image/" ++ sub ++ ";base64," ++ pay ++ "\"").data
      = srcLit ++ (sub.data ++ (b64Lit ++ (pay.data ++ '"' :: []))) := by
    simp [String.data_append, srcLit, b64Lit]
  rw [extractBase64, hd,
    firstMatch_head _ _
      (matchAt_wellformed sub.data pay.data [] hsub' hsubSemi hpay' hpayQ)]
  simp [Option.map]

/-- Witness for C3 at subtype `png` and payload `QUJD`. -/
theorem fetcher_extracts_first_payload_witness :
    extractBase64 ("src=\"data:image/" ++ "png" ++ ";base64," ++ "QUJD" ++ "\"")
      = some "QUJD" ∧
    base64Decode "QUJD" = [65, 66, 67] :=
  ⟨(fetcher_extracts_first_payload "png" "QUJD" (by decide) (by decide)
      (by decide) (by decide)).1,
   (fetcher_extracts_first_payload "png" "QUJD" (by decide) (by decide)
      (by decide) (by decide)).2.2.1⟩

/-- The local filesystem as the scripts touch it: files (path ↦ byte
list, an association list) and the set of directories present. Paths are
taken relative to the script directory (`__dirname`). -/
structure FS where
  files : List (String × List Nat)
  dirs : List String
  deriving DecidableEq, Repr

/-- Association-list lookup of a file's bytes. -/
def lookupFile : List (String × List Nat) → String → Option (List Nat)
| [], _ => none
| (q, c) :: rest, p => if q = p then some c else lookupFile rest p

/-- Replace-in-place (or append) write of one file entry. -/
def setFile : List (String × List Nat) → String → List Nat →
    List (String × List Nat)
| [], p, b => [(p, b)]
| (q, c) :: rest, p, b =>
    if q = p then (p, b) :: rest else (q, c) :: setFile rest p b

/-- Remove a file entry. -/
def removeFile : List (String × List Nat) → String → List (String × List Nat)
| [], _ => []
| (q, c) :: rest, p =>
    if q = p then removeFile rest p else (q, c) :: removeFile rest p

/-- `fs.existsSync` / `fs.access` on a file path. -/
def FS.fileExists (fs : FS) (p : String) : Bool :=
  (lookupFile fs.files p).isSome

/-- `fs.existsSync` on a directory path. -/
def FS.dirExists (fs : FS) (p : String) : Bool :=
  fs.dirs.contains p

/-- Record one directory as present (no error if it already is). -/
def FS.addDir (fs : FS) (d : String) : FS :=
  if fs.dirs.contains d then fs else { fs with dirs := d :: fs.dirs }

/-- The chain of ancestor directories of a `/`-separated path, outermost
first and ending with the path itself: `dirChainL "a/b".data [] =
["a", "a/b"]`. -/
def dirChainL : List Char → List Char → List String
| [], acc => [String.mk acc.reverse]
| c :: rest, acc =>
    if c = '/' then String.mk acc.reverse :: dirChainL rest (c :: acc)
    else dirChainL rest (c :: acc)

/-- `fs.mkdirSync(p, { recursive: true })` / `fs.mkdir(p, { recursive:
true })`: create the directory and every missing ancestor; never an error
when any of them already exists. -/
def FS.mkdirRec (fs : FS) (p : String) : FS :=
  (dirChainL p.data []).foldl FS.addDir fs

/-- `fs.writeFileSync(p, bytes)`: full overwrite of whatever was at `p`. -/
def FS.writeFile (fs : FS) (p : String) (b : List Nat) : FS :=
  { fs with files := setFile fs.files p b }

/-- `fs.rename(src, dst)` as `moveFileToFolder` uses it: when `src`
exists, a single rename makes its bytes appear at `dst` (last write wins)
and disappear from `src`; when `src` is missing the thrown error is
caught and logged, leaving the filesystem unchanged. -/
def FS.rename (fs : FS) (src dst : String) : FS :=
  match lookupFile fs.files src with
  | some b => { fs with files := setFile (removeFile fs.files src) dst b }
  | none => fs

/-- Lines 101–110 of `downloadImage` (`index.js`), the Local Materializer:
`destFolder = path.join('images', lang, relativePath)` (under
`__dirname`), `mkdirSync {recursive}` guarded by `existsSync`, then
`writeFileSync(path.join(destFolder, id + '.jpg'), imageBuffer)`. -/
def saveImage (fs : FS) (bytes : List Nat) (lang relativePath id : String) :
    FS :=
  let destFolder := pathJoin (pathJoin "images" lang) relativePath
  let fs1 := if fs.dirExists destFolder then fs else fs.mkdirRec destFolder
  fs1.writeFile (pathJoin destFolder (id ++ ".jpg")) bytes

/-- `downloadImage(fileObj, lang)` from `index.js`, lines 79–115, with the
upstream HTTP response body made an explicit argument: extract the base64
payload with the regex (returning unchanged on failure), decode it, then
materialize the bytes. -/
def downloadImage (fs : FS) (fileObj : ImageRecord) (lang : String)
    (body : String) : FS :=
  match extractBase64 body with
  | none => fs
  | some b64 =>
      saveImage fs (base64Decode b64) lang fileObj.relativePath fileObj.id

/-- The sequential download loop of `downloadImagesForLanguage`: one
awaited `downloadImage` per record, the response for id `i` being
`resp i`. -/
def runBatch (fs : FS) (objs : List ImageRecord) (lang : String)
    (resp : String → String) : FS :=
  objs.foldl (fun acc obj => downloadImage acc obj lang (resp obj.id)) fs

theorem lookup_setFile_self : ∀ (l : List (String × List Nat)) (p : String) (b : List Nat),
    lookupFile (setFile l p b) p = some b
| [], p, b => by rw [setFile, lookupFile, if_pos rfl]
| (q, c) :: rest, p, b => by
    rw [setFile]
    by_cases h : q = p
    · rw [if_pos h, lookupFile, if_pos rfl]
    · rw [if_neg h, lookupFile, if_neg h, lookup_setFile_self rest p b]

theorem lookup_setFile_other : ∀ (l : List (String × List Nat)) (p x : String) (b : List Nat),
    x ≠ p → lookupFile (setFile l p b) x = lookupFile l x
| [], p, x, b, hx => by simp [setFile, lookupFile, Ne.symm hx]
| (q, c) :: rest, p, x, b, hx => by
    by_cases h : q = p
    · subst h
      simp [setFile, lookupFile, Ne.symm hx]
    · simp only [setFile, if_neg h, lookupFile]
      by_cases h2 : q = x
      · simp [h2]
      · simp [h2, lookup_setFile_other rest p x b hx]

theorem setFile_setFile : ∀ (l : List (String × List Nat)) (p : String) (b b2 : List Nat),
    setFile (setFile l p b) p b2 = setFile l p b2
| [], p, b, b2 => by simp [setFile]
| (q, c) :: rest, p, b, b2 => by
    by_cases h : q = p
    · subst h
      simp [setFile]
    · simp [setFile, if_neg h, setFile_setFile rest p b b2]

theorem lookup_removeFile_self : ∀ (l : List (String × List Nat)) (p : String),
    lookupFile (removeFile l p) p = none
| [], p => rfl
| (q, c) :: rest, p => by
    rw [removeFile]
    by_cases h : q = p
    · rw [if_pos h, lookup_removeFile_self rest p]
    · rw [if_neg h, lookupFile, if_neg h, lookup_removeFile_self rest p]

theorem lookup_removeFile_other : ∀ (l : List (String × List Nat)) (p x : String),
    x ≠ p → lookupFile (removeFile l p) x = lookupFile l x
| [], p, x, hx => rfl
| (q, c) :: rest, p, x, hx => by
    by_cases h : q = p
    · subst h
      simp [removeFile, lookupFile, Ne.symm hx, lookup_removeFile_other rest q x hx]
    · simp only [removeFile, if_neg h, lookupFile]
      by_cases h2 : q = x
      · simp [h2]
      · simp [h2, lookup_removeFile_other rest p x hx]

theorem addDir_files (fs : FS) (d : String) : (fs.addDir d).files = fs.files := by
  rw [FS.addDir]
  by_cases h : fs.dirs.contains d
  · rw [if_pos h]
  · rw [if_neg h]

theorem foldl_addDir_files : ∀ (l : List String) (fs : FS),
    (l.foldl FS.addDir fs).files = fs.files
| [], fs => rfl
| d :: rest, fs => by
    rw [List.foldl_cons, foldl_addDir_files rest (fs.addDir d), addDir_files]

theorem addDir_dirExists_self (fs : FS) (d : String) :
    (fs.addDir d).dirExists d = true := by
  rw [FS.addDir]
  by_cases h : fs.dirs.contains d
  · rw [if_pos h]; exact h
  · rw [if_neg h]
    simp [FS.dirExists]

theorem addDir_dirExists_mono (fs : FS) (d x : String)
    (h : fs.dirExists x = true) : (fs.addDir d).dirExists x = true := by
  rw [FS.addDir]
  by_cases hc : fs.dirs.contains d
  · rw [if_pos hc]; exact h
  · rw [if_neg hc]
    simp only [FS.dirExists, List.contains_cons]
    simp [FS.dirExists] at h
    simp [h]

theorem foldl_addDir_dirExists_mono : ∀ (l : List String) (fs : FS) (x : String),
    fs.dirExists x = true → (l.foldl FS.addDir fs).dirExists x = true
| [], fs, x, h => h
| d :: rest, fs, x, h => by
    rw [List.foldl_cons]
    exact foldl_addDir_dirExists_mono rest (fs.addDir d) x (addDir_dirExists_mono fs d x h)

theorem foldl_addDir_dirExists_mem : ∀ (l : List String) (fs : FS) (x : String),
    x ∈ l → (l.foldl FS.addDir fs).dirExists x = true
| [], fs, x, h => absurd h (List.not_mem_nil x)
| d :: rest, fs, x, h => by
    rw [List.foldl_cons]
    rcases List.mem_cons.mp h with h1 | h2
    · exact foldl_addDir_dirExists_mono rest (fs.addDir d) x
        (h1 ▸ addDir_dirExists_self fs d)
    · exact foldl_addDir_dirExists_mem rest (fs.addDir d) x h2

theorem mem_dirChainL : ∀ (cs acc : List Char),
    String.mk (acc.reverse ++ cs) ∈ dirChainL cs acc
| [], acc => by rw [dirChainL, List.append_nil]; exact List.mem_singleton.mpr rfl
| c :: rest, acc => by
    rw [dirChainL]
    have hr : acc.reverse ++ c :: rest = (c :: acc).reverse ++ rest := by
      simp
    by_cases h : c = '/'
    · rw [if_pos h]
      exact List.mem_cons_of_mem _ (hr ▸ mem_dirChainL rest (c :: acc))
    · rw [if_neg h]
      exact hr ▸ mem_dirChainL rest (c :: acc)

theorem mkdirRec_dirExists_self (fs : FS) (p : String) :
    (fs.mkdirRec p).dirExists p = true := by
  rw [FS.mkdirRec]
  refine foldl_addDir_dirExists_mem _ fs p ?_
  have h := mem_dirChainL p.data []
  simpa using h

theorem mkdirRec_files (fs : FS) (p : String) :
    (fs.mkdirRec p).files = fs.files := foldl_addDir_files _ fs

theorem addDir_of_dirExists (fs : FS) (d : String)
    (h : fs.dirExists d = true) : fs.addDir d = fs := by
  have h2 : fs.dirs.contains d = true := h
  rw [FS.addDir, if_pos h2]

theorem foldl_addDir_of_all : ∀ (l : List String) (fs : FS),
    (∀ d ∈ l, fs.dirExists d = true) → l.foldl FS.addDir fs = fs
| [], fs, _ => rfl
| d :: rest, fs, h => by
    rw [List.foldl_cons, addDir_of_dirExists fs d (h d (List.mem_cons_self d rest))]
    exact foldl_addDir_of_all rest fs (fun x hx => h x (List.mem_cons_of_mem d hx))

theorem mkdirRec_idem (fs : FS) (p : String) :
    (fs.mkdirRec p).mkdirRec p = fs.mkdirRec p := by
  rw [FS.mkdirRec, FS.mkdirRec]
  exact foldl_addDir_of_all _ _
    (fun d hd => foldl_addDir_dirExists_mem _ fs d hd)

theorem pathJoin_empty_right (a : String) : pathJoin a "" = a := by
  rw [pathJoin]
  by_cases h : a = ""
  · rw [if_pos h, h]
  · rw [if_neg h, if_pos rfl]

theorem saveImage_unfold (fs : FS) (bytes : List Nat) (lang rel id : String) :
    saveImage fs bytes lang rel id =
      FS.writeFile
        (if fs.dirExists (pathJoin (pathJoin "images" lang) rel) then fs
         else fs.mkdirRec (pathJoin (pathJoin "images" lang) rel))
        (pathJoin (pathJoin (pathJoin "images" lang) rel) (id ++ ".jpg"))
        bytes := rfl

theorem writeFile_writeFile (fs : FS) (p : String) (b b2 : List Nat) :
    (fs.writeFile p b).writeFile p b2 = fs.writeFile p b2 := by
  simp [FS.writeFile, setFile_setFile]

theorem saveImage_files (fs : FS) (bytes : List Nat) (lang rel id : String) :
    (saveImage fs bytes lang rel id).files =
      setFile fs.files
        (pathJoin (pathJoin (pathJoin "images" lang) rel) (id ++ ".jpg"))
        bytes := by
  rw [saveImage_unfold, FS.writeFile]
  by_cases h : fs.dirExists (pathJoin (pathJoin "images" lang) rel)
  · rw [if_pos h]
  · rw [if_neg h, mkdirRec_files]

theorem saveImage_dirExists (fs : FS) (bytes : List Nat) (lang rel id : String) :
    (saveImage fs bytes lang rel id).dirExists
      (pathJoin (pathJoin "images" lang) rel) = true := by
  rw [saveImage_unfold]
  by_cases h : fs.dirExists (pathJoin (pathJoin "images" lang) rel)
  · rw [if_pos h]
    exact h
  · rw [if_neg h]
    exact mkdirRec_dirExists_self fs _

theorem saveImage_idem (fs : FS) (bytes : List Nat) (lang rel id : String) :
    saveImage (saveImage fs bytes lang rel id) bytes lang rel id
      = saveImage fs bytes lang rel id := by
  rw [saveImage_unfold (saveImage fs bytes lang rel id),
    if_pos (saveImage_dirExists fs bytes lang rel id)]
  rw [saveImage_unfold fs]
  exact writeFile_writeFile _ _ _ _

/-- C4: the Materializer writes `bytes` to the deterministic destination
`images/<lang>/<relativePath>/<id>.jpg` (an empty relativePath
contributing nothing to the folder), leaves every other file untouched,
ends with the destination folder present, and directory creation is
recursive and idempotent (never an error when already present). -/
theorem materializer_writes_deterministic_path (fs : FS) (bytes : List Nat)
    (lang relativePath id : String) :
    lookupFile (saveImage fs bytes lang relativePath id).files
        (pathJoin (pathJoin (pathJoin "images" lang) relativePath)
          (id ++ ".jpg")) = some bytes ∧
    (∀ q, q ≠ pathJoin (pathJoin (pathJoin "images" lang) relativePath)
        (id ++ ".jpg") →
      lookupFile (saveImage fs bytes lang relativePath id).files q
        = lookupFile fs.files q) ∧
    (saveImage fs bytes lang relativePath id).dirExists
        (pathJoin (pathJoin "images" lang) relativePath) = true ∧
    pathJoin (pathJoin "images" lang) "" = pathJoin "images" lang ∧
    (∀ (fs2 : FS) (p : String), (fs2.mkdirRec p).mkdirRec p = fs2.mkdirRec p) := by
  refine ⟨?_, ?_, saveImage_dirExists fs bytes lang relativePath id,
    pathJoin_empty_right _, fun fs2 p => mkdirRec_idem fs2 p⟩
  · rw [saveImage_files]
    exact lookup_setFile_self _ _ _
  · intro q hq
    rw [saveImage_files]
    exact lookup_setFile_other _ _ _ _ hq

/-- C5: running the fetch-decode-save pipeline a second time for the same
identifier and the same upstream response body yields a filesystem equal
to that of a single run — in particular the output file content is
byte-identical and no other file or directory changes. -/
theorem pipeline_rerun_is_idempotent (fs : FS) (obj : ImageRecord) (lang body : String) :
    downloadImage (downloadImage fs obj lang body) obj lang body
      = downloadImage fs obj lang body := by
  cases hE : extractBase64 body with
  | none => simp only [downloadImage, hE]
  | some b64 =>
      simp only [downloadImage, hE]
      exact saveImage_idem fs (base64Decode b64) lang obj.relativePath obj.id

/-- C10: when extraction finds no pattern match in the response body,
`downloadImage` leaves the filesystem completely unchanged — no directory
is created and no file is written, since both happen only after a
successful extraction. -/
theorem extraction_failure_leaves_fs_unchanged (fs : FS) (obj : ImageRecord) (lang body : String)
    (h : extractBase64 body = none) :
    (downloadImage fs obj lang body).files = fs.files ∧
    (downloadImage fs obj lang body).dirs = fs.dirs := by
  simp [downloadImage, h]

/-- C9: an identifier whose response body contains no match of the
extraction pattern is a soft failure: `downloadImage` returns with the
filesystem unchanged, and the batch loop continues exactly as it would on
the remaining identifiers. -/
theorem extraction_failure_is_soft (fs : FS) (obj : ImageRecord) (lang : String)
    (rest : List ImageRecord) (resp : String → String)
    (h : extractBase64 (resp obj.id) = none) :
    downloadImage fs obj lang (resp obj.id) = fs ∧
    runBatch fs (obj :: rest) lang resp = runBatch fs rest lang resp := by
  have h1 : downloadImage fs obj lang (resp obj.id) = fs := by
    simp only [downloadImage, h]
  refine ⟨h1, ?_⟩
  rw [runBatch, runBatch, List.foldl_cons, h1]

/-- Witness for C4 on an empty filesystem, language `en`, relative path
`a`, identifier `x`. -/
theorem materializer_writes_deterministic_path_witness :
    lookupFile (saveImage { files := [], dirs := [] } [1, 2] "en" "a" "x").files
        "images/en/a/x.jpg" = some [1, 2] ∧
    (saveImage { files := [], dirs := [] } [1, 2] "en" "a" "x").dirExists
        "images/en/a" = true :=
  ⟨(materializer_writes_deterministic_path { files := [], dirs := [] }
      [1, 2] "en" "a" "x").1,
   (materializer_writes_deterministic_path { files := [], dirs := [] }
      [1, 2] "en" "a" "x").2.2.1⟩

/-- Witness for C10 on a body with no data URI. -/
theorem extraction_failure_leaves_fs_unchanged_witness :
    extractBase64 "<html>no data uri</html>" = none ∧
    (downloadImage { files := [("keep.jpg", [7])], dirs := ["images"] }
        { id := "z", relativePath := "" } "en"
        "<html>no data uri</html>").files = [("keep.jpg", [7])] ∧
    (downloadImage { files := [("keep.jpg", [7])], dirs := ["images"] }
        { id := "z", relativePath := "" } "en"
        "<html>no data uri</html>").dirs = ["images"] :=
  ⟨rfl,
   (extraction_failure_leaves_fs_unchanged
      { files := [("keep.jpg", [7])], dirs := ["images"] }
      { id := "z", relativePath := "" } "en" "<html>no data uri</html>" rfl).1,
   (extraction_failure_leaves_fs_unchanged
      { files := [("keep.jpg", [7])], dirs := ["images"] }
      { id := "z", relativePath := "" } "en" "<html>no data uri</html>" rfl).2⟩

/-- Witness for C9: a batch whose first identifier gets a matchless
response continues exactly as the batch without it. -/
theorem extraction_failure_is_soft_witness :
    downloadImage { files := [], dirs := [] } { id := "z", relativePath := "" }
        "en" "not an image" = { files := [], dirs := [] } ∧
    runBatch { files := [], dirs := [] }
        ({ id := "z", relativePath := "" } ::
          [{ id := "w", relativePath := "" }]) "en" (fun _ => "not an image")
      = runBatch { files := [], dirs := [] }
          [{ id := "w", relativePath := "" }] "en" (fun _ => "not an image") :=
  extraction_failure_is_soft { files := [], dirs := [] }
    { id := "z", relativePath := "" } "en" [{ id := "w", relativePath := "" }]
    (fun _ => "not an image") rfl

/-- The characters JavaScript's `String.prototype.trim` strips: ASCII
whitespace and line terminators plus the Unicode space separators, NBSP,
BOM and the line/paragraph separators. -/
def isJsWhitespace (c : Char) : Bool :=
  let n := c.toNat
  n = 32 || (9 ≤ n && n ≤ 13) || n = 160 || n = 5760 ||
    (8192 ≤ n && n ≤ 8202) || n = 8232 || n = 8233 || n = 8239 ||
    n = 8287 || n = 12288 || n = 65279

/-- `id.trim()`: strip `isJsWhitespace` characters from both ends. -/
def jsTrim (s : String) : String :=
  String.mk (((s.data.dropWhile isJsWhitespace).reverse.dropWhile
    isJsWhitespace).reverse)

/-- `content.split(/\r?\n/)` scanning left to right: `\r\n` and bare `\n`
both separate, a lone `\r` stays inside its line; a trailing separator
produces a final empty field, and an empty content gives one empty
field. The accumulator holds the current field reversed. -/
def splitCRLF : List Char → List Char → List String
| [], acc => [String.mk acc.reverse]
| '\r' :: '\n' :: rest, acc => String.mk acc.reverse :: splitCRLF rest []
| '\n' :: rest, acc => String.mk acc.reverse :: splitCRLF rest []
| c :: rest, acc => splitCRLF rest (c :: acc)

/-- `content.split(/\r?\n/)` on a string. -/
def splitLines (content : String) : List String :=
  splitCRLF content.data []

/-- `readImageIds` of the downloader script (`src/unnamed/part_000`,
lines 62–71), successful-read path:
`content.split(/\r?\n/).filter(id => id.trim() !== '')` — note the lines
are only *tested* with `trim`, not mapped through it. -/
def readImageIdsRaw (content : String) : List String :=
  (splitLines content).filter (fun id => jsTrim id ≠ "")

/-- `readImageIds` of the arranger script (`src/unnamed/part_001`, lines
13–22), successful-read path:
`content.split(/\r?\n/).map(id => id.trim()).filter(id => id !== '')`. -/
def readImageIds (content : String) : List String :=
  ((splitLines content).map jsTrim).filter (fun id => id ≠ "")

/-- The `try/catch` around `fs.readFileSync` in `readImageIds`
(`part_000`): a missing or unreadable file (`none`) is logged and yields
the empty list. -/
def readImageIdsFromFile : Option String → List String
| none => []
| some content => readImageIdsRaw content

/-- The order in which `main` of `part_000` issues downloads: every
English id (paired with `en`) in file order, then every Thai id (paired
with `th`). Each language's file content is `none` when the file is
missing or unreadable. -/
def mainDownloadSeq (enContent thContent : Option String) :
    List (String × String) :=
  (readImageIdsFromFile enContent).map (fun id => (id, "en")) ++
    (readImageIdsFromFile thContent).map (fun id => (id, "th"))

/-- `moveFileToFolder(sourcePath, destFolder, fileName)` (`part_001`,
lines 32–43): ensure the destination folder exists (recursive mkdir),
then a single `fs.rename` to `path.join(destFolder, fileName)`. -/
def moveFileToFolder (fs : FS) (sourcePath destFolder fileName : String) :
    FS :=
  (fs.mkdirRec destFolder).rename sourcePath (pathJoin destFolder fileName)

/-- `arrangeImages(imageIds, langFolder, imagesDir)` (`part_001`, lines
52–68): for each id in order, if `<imagesDir>/<id>.jpg` exists
(`fs.access`), move it into `<imagesDir>/<langFolder>`; otherwise the
thrown error is caught, a skip is logged and the loop continues. -/
def arrangeImages : FS → List String → String → String → FS
| fs, [], _, _ => fs
| fs, id :: rest, langFolder, imagesDir =>
    let fileName := id ++ ".jpg"
    let sourcePath := pathJoin imagesDir fileName
    let fs1 :=
      if fs.fileExists sourcePath then
        moveFileToFolder fs sourcePath (pathJoin imagesDir langFolder) fileName
      else fs
    arrangeImages fs1 rest langFolder imagesDir

theorem rename_dirs (fs : FS) (src dst : String) :
    (fs.rename src dst).dirs = fs.dirs := by
  rw [FS.rename]
  cases lookupFile fs.files src <;> rfl

theorem mkdirRec_dirs_only (fs : FS) (p : String) (d : String)
    (h : fs.dirExists d = true) : (fs.mkdirRec p).dirExists d = true :=
  foldl_addDir_dirExists_mono _ fs d h

theorem append_jpg_ne_empty (id : String) : id ++ ".jpg" ≠ "" := by
  intro h
  have hl := congrArg String.length h
  rw [String.length_append] at hl
  have h4 : (".jpg" : String).length = 4 := rfl
  have h0 : ("" : String).length = 0 := rfl
  omega

theorem pathJoin_length (a b : String) (ha : a ≠ "") (hb : b ≠ "") :
    (pathJoin a b).length = a.length + 1 + b.length := by
  rw [pathJoin, if_neg ha, if_neg hb, String.length_append,
    String.length_append]
  have h1 : ("/" : String).length = 1 := rfl
  omega

theorem pathJoin_ne_empty (a b : String) (ha : a ≠ "") (hb : b ≠ "") :
    pathJoin a b ≠ "" := by
  intro h
  have hl := congrArg String.length h
  rw [pathJoin_length a b ha hb] at hl
  have h0 : ("" : String).length = 0 := rfl
  omega

theorem src_ne_dst (imagesDir langFolder f : String)
    (hl : langFolder ≠ "") (hf : f ≠ "") :
    pathJoin imagesDir f ≠ pathJoin (pathJoin imagesDir langFolder) f := by
  intro h
  have hlen := congrArg String.length h
  by_cases hi : imagesDir = ""
  · subst hi
    have e1 : pathJoin "" f = f := by rw [pathJoin, if_pos rfl]
    have e2 : pathJoin "" langFolder = langFolder := by rw [pathJoin, if_pos rfl]
    rw [e1, e2, pathJoin_length langFolder f hl hf] at hlen
    omega
  · rw [pathJoin_length imagesDir f hi hf] at hlen
    rw [pathJoin_length _ f (pathJoin_ne_empty imagesDir langFolder hi hl) hf,
      pathJoin_length imagesDir langFolder hi hl] at hlen
    omega

/-- C6: for each identifier, the Arranger checks `<base>/<id>.jpg`: when
it exists, after that identifier is processed the file's bytes are at
`<base>/<lang>/<id>.jpg`, the source path no longer exists, and the
language folder has been created; when it is absent the filesystem is
untouched (the error is caught, a skip is logged); in both cases the loop
continues with the remaining identifiers. -/
theorem arranger_moves_present_and_skips_missing
    (fs : FS) (id langFolder imagesDir : String)
    (rest : List String) (hlang : langFolder ≠ "") :
    (fs.fileExists (pathJoin imagesDir (id ++ ".jpg")) = true →
      (arrangeImages fs [id] langFolder imagesDir).fileExists
          (pathJoin (pathJoin imagesDir langFolder) (id ++ ".jpg")) = true ∧
      (arrangeImages fs [id] langFolder imagesDir).fileExists
          (pathJoin imagesDir (id ++ ".jpg")) = false ∧
      (arrangeImages fs [id] langFolder imagesDir).dirExists
          (pathJoin imagesDir langFolder) = true) ∧
    (fs.fileExists (pathJoin imagesDir (id ++ ".jpg")) = false →
      arrangeImages fs [id] langFolder imagesDir = fs) ∧
    arrangeImages fs (id :: rest) langFolder imagesDir
      = arrangeImages (arrangeImages fs [id] langFolder imagesDir) rest
          langFolder imagesDir := by
  have hne : pathJoin imagesDir (id ++ ".jpg")
      ≠ pathJoin (pathJoin imagesDir langFolder) (id ++ ".jpg") :=
    src_ne_dst imagesDir langFolder (id ++ ".jpg") hlang (append_jpg_ne_empty id)
  refine ⟨?_, ?_, ?_⟩
  · intro hex
    have h1 : arrangeImages fs [id] langFolder imagesDir
        = moveFileToFolder fs (pathJoin imagesDir (id ++ ".jpg"))
            (pathJoin imagesDir langFolder) (id ++ ".jpg") := by
      simp only [arrangeImages, if_pos hex]
    rw [h1, moveFileToFolder]
    obtain ⟨b, hb⟩ := Option.isSome_iff_exists.mp hex
    have hb2 : lookupFile (fs.mkdirRec (pathJoin imagesDir langFolder)).files
        (pathJoin imagesDir (id ++ ".jpg")) = some b := by
      rw [mkdirRec_files]
      exact hb
    rw [FS.rename, hb2]
    refine ⟨?_, ?_, ?_⟩
    · simp only [FS.fileExists]
      rw [lookup_setFile_self]
      rfl
    · simp only [FS.fileExists]
      rw [lookup_setFile_other _ _ _ _ hne, lookup_removeFile_self]
      rfl
    · have hd : (fs.mkdirRec (pathJoin imagesDir langFolder)).dirExists
          (pathJoin imagesDir langFolder) = true :=
        mkdirRec_dirExists_self fs _
      simpa [FS.dirExists] using hd
  · intro hnex
    simp only [arrangeImages]
    rw [hnex]
    simp
  · rfl

theorem filterMapComm {α β : Type} (f : α → β) (p : β → Bool) :
    ∀ l : List α, (l.map f).filter p = (l.filter (fun x => p (f x))).map f
| [] => rfl
| a :: rest => by
    by_cases h : p (f a) = true
    · simp only [List.map_cons, List.filter_cons, h, if_pos trivial]
      rw [filterMapComm f p rest]
    · simp only [List.map_cons, List.filter_cons, h]
      rw [filterMapComm f p rest]
      simp [h]


/-- C7 (amended): both readers split on bare-LF and CRLF boundaries,
discard empty and whitespace-only lines and preserve order; the arranger
script's reader additionally trims each returned identifier, while the
downloader script's reader returns the surviving lines untrimmed (it uses
`trim` only in the filter test). -/
theorem readers_split_and_discard (content : String) :
    readImageIds content = (readImageIdsRaw content).map jsTrim ∧
    (∀ x ∈ readImageIdsRaw content, jsTrim x ≠ "") ∧
    (∀ x ∈ readImageIds content, x ≠ "") ∧
    splitLines "a\r\nb\nc" = ["a", "b", "c"] ∧
    readImageIds " a \r\nb\n\nc" = ["a", "b", "c"] ∧
    readImageIdsRaw " a \r\nb\n\nc" = [" a ", "b", "c"] := by
  refine ⟨?_, ?_, ?_, rfl, rfl, rfl⟩
  · rw [readImageIds, readImageIdsRaw, filterMapComm jsTrim _ (splitLines content)]
  · intro x hx
    rw [readImageIdsRaw] at hx
    have := (List.mem_filter.mp hx).2
    simpa using this
  · intro x hx
    rw [readImageIds] at hx
    have := (List.mem_filter.mp hx).2
    simpa using this

/-- Witness for C6: with `imgs/x.jpg` present, id `x` is moved into
`imgs/en/`; with `y.jpg` absent, id `y` changes nothing. -/
theorem arranger_moves_present_and_skips_missing_witness :
    ("en" : String) ≠ "" ∧
    (arrangeImages { files := [("imgs/x.jpg", [9])], dirs := ["imgs"] }
        ["x"] "en" "imgs").fileExists "imgs/en/x.jpg" = true ∧
    (arrangeImages { files := [("imgs/x.jpg", [9])], dirs := ["imgs"] }
        ["x"] "en" "imgs").fileExists "imgs/x.jpg" = false ∧
    arrangeImages { files := [("imgs/x.jpg", [9])], dirs := ["imgs"] }
        ["y"] "en" "imgs" = { files := [("imgs/x.jpg", [9])], dirs := ["imgs"] } :=
  ⟨by decide,
   ((arranger_moves_present_and_skips_missing
      { files := [("imgs/x.jpg", [9])], dirs := ["imgs"] } "x" "en" "imgs" []
      (by decide)).1 rfl).1,
   ((arranger_moves_present_and_skips_missing
      { files := [("imgs/x.jpg", [9])], dirs := ["imgs"] } "x" "en" "imgs" []
      (by decide)).1 rfl).2.1,
   (arranger_moves_present_and_skips_missing
      { files := [("imgs/x.jpg", [9])], dirs := ["imgs"] } "y" "en" "imgs" []
      (by decide)).2.1 rfl⟩

/-- C7 as stated is false on the downloader script: its `readImageIds`
returns the line `" a"` with its leading whitespace intact, though the
trimmed form `"a"` is what the claim requires. -/
theorem reader_returns_untrimmed_counterexample :
    readImageIdsRaw " a" = [" a"] ∧ jsTrim " a" = "a" ∧ (" a" : String) ≠ "a" :=
  ⟨rfl, rfl, by decide⟩

/-- Witness for C7 (amended) at a concrete three-line content. -/
theorem readers_split_and_discard_witness :
    readImageIds " a \r\nb\n\nc"
      = (readImageIdsRaw " a \r\nb\n\nc").map jsTrim :=
  (readers_split_and_discard " a \r\nb\n\nc").1

/-- C8: a missing or unreadable id-list file yields the empty identifier
sequence rather than an error raised to the caller, and `main` still
processes the other language's list in full, in file order. -/
theorem missing_id_file_is_not_fatal (enContent thContent : Option String) :
    readImageIdsFromFile none = [] ∧
    mainDownloadSeq none thContent
      = (readImageIdsFromFile thContent).map (fun id => (id, "th")) ∧
    mainDownloadSeq enContent none
      = (readImageIdsFromFile enContent).map (fun id => (id, "en")) := by
  refine ⟨rfl, ?_, ?_⟩ <;> simp [mainDownloadSeq, readImageIdsFromFile]
